import Mathlib

/-!
Shallow embedding of the two example trading algorithms
(`Demonstration.py` and `DemonstrationUniverse.py`) that consume the
granted-patents dataset, together with theorems settling the behavioural
claims about them.

Modelling conventions:
* Python numbers: patent counts are `Int` (Python `int`), the normalized
  `TechDiversity` score and portfolio weights are `ℚ` (the float literals
  `0.5`/`1.0` become `1/2`/`1`; no float-specific behaviour is involved in
  any comparison made by the code).
* Engine side effects (`SetHoldings`, `Debug`, `Log`) are reified as a
  list of `Command` values returned by each callback.
* A data slice is the association list of (symbol, record) pairs that
  `slice.Get(GrantedPatentsData)` yields; Python dict truthiness is
  emptiness of that list, and Python dict indexing is `List.lookup`,
  whose failure (`KeyError`) is modelled by the callback returning `none`.
-/

/-- One patent metric record, as delivered by the data feed
(fields of the external `GrantedPatentsData` / `PatentMetricRecord`). -/
structure GrantedPatentsData where
  Symbol : String
  PatentsFiled : Int
  CumulativePatents : Int
  TechDiversity : ℚ
  Patents90d : Int
deriving DecidableEq

/-- An outbound command issued to the host engine by a callback:
a set-target-holdings request, a `Debug` message, or a `Log` message. -/
inductive Command where
  | setHoldings (symbol : String) (weight : ℚ)
  | debug (msg : String)
  | log (msg : String)
deriving DecidableEq

/-- The set-target-holdings requests among a list of commands,
as (symbol, weight) pairs, in issue order. -/
def setHoldingsOf (cmds : List Command) : List (String × ℚ) :=
  cmds.filterMap fun c =>
    match c with
    | Command.setHoldings s w => some (s, w)
    | _ => none

/-- State of `GrantedPatentsDataAlgorithm` (`Demonstration.py`) visible to
`OnData`: the two symbols registered in `Initialize` and the portfolio
invested flag.  The algorithm subscribes a single equity and only ever
issues `SetHoldings` for it, so the portfolio-wide `self.Portfolio.Invested`
(line 44) and the per-security `self.Portfolio[self.equity_symbol].Invested`
(line 49) coincide; both are modelled by `invested`. -/
structure GrantedPatentsDataAlgorithm where
  equity_symbol : String
  patent_data_symbol : String
  invested : Bool

/-- `GrantedPatentsDataAlgorithm.OnData` (`Demonstration.py`, lines 29-51).
`slice` is the collection returned by `slice.Get(GrantedPatentsData)`.
Result `none` models the uncaught `KeyError` of `data[self.patent_data_symbol]`;
`some cmds` is normal completion with the issued commands. -/
def OnData (self : GrantedPatentsDataAlgorithm)
    (slice : List (String × GrantedPatentsData)) : Option (List Command) :=
  if slice.isEmpty then some []
  else
    match slice.lookup self.patent_data_symbol with
    | none => none
    | some patent_data =>
      if 0 < patent_data.PatentsFiled then
        let weight : ℚ := if 1/2 < patent_data.TechDiversity then 1 else 1/2
        if self.invested = false then
          some [Command.setHoldings self.equity_symbol weight,
            Command.debug ("Bought " ++ self.equity_symbol ++ " - Patents Filed: "
              ++ toString patent_data.PatentsFiled ++ ", Tech Diversity: "
              ++ toString patent_data.TechDiversity)]
        else some []
      else if 0 < patent_data.CumulativePatents ∧ self.invested = true then
        some []
      else some []

/-- Order status values relevant to `OnOrderEvent`. -/
inductive OrderStatus where
  | submitted
  | partiallyFilled
  | filled
  | canceled
  | invalid
deriving DecidableEq

/-- An order event notification from the host engine. -/
structure OrderEvent where
  Symbol : String
  FillQuantity : Int
  Status : OrderStatus

/-- `GrantedPatentsDataAlgorithm.OnOrderEvent` (`Demonstration.py`, lines 53-59). -/
def OnOrderEvent (orderEvent : OrderEvent) : List Command :=
  if orderEvent.Status = OrderStatus.filled then
    [Command.debug ("Order Filled: " ++ orderEvent.Symbol ++ " - Quantity: "
      ++ toString orderEvent.FillQuantity)]
  else []

/-- The string `sub` occurs contiguously inside `s`. -/
def containsStr (s sub : String) : Prop :=
  ∃ a b, s = a ++ sub ++ b

/-- Sanity: the spec §8 example — `PatentsFiled = 5`, `TechDiversity = 0.8`,
no current position — produces a holdings command of weight `1.0`. -/
theorem onData_example_buy_full_weight :
    setHoldingsOf ((OnData ⟨"AAPL", "AAPL.P", false⟩
        [("AAPL.P", ⟨"AAPL", 5, 100, 4/5, 3⟩)]).getD []) = [("AAPL", 1)] := by
  norm_num [OnData, setHoldingsOf, List.filterMap_cons]

/-- C1: for every record delivered with `PatentsFiled > 0`, `OnData` computes
the weight `1.0` if `TechDiversity > 0.5` (else `0.5`) and issues a
set-target-holdings command for the subscribed equity with exactly that
weight if and only if the portfolio holds no position. -/
theorem OnData_patents_filed_buy (self : GrantedPatentsDataAlgorithm)
    (slice : List (String × GrantedPatentsData)) (patent_data : GrantedPatentsData)
    (hlk : slice.lookup self.patent_data_symbol = some patent_data)
    (hpf : 0 < patent_data.PatentsFiled) :
    OnData self slice ≠ none ∧
      setHoldingsOf ((OnData self slice).getD []) =
        if self.invested = false then
          [(self.equity_symbol, if 1/2 < patent_data.TechDiversity then (1 : ℚ) else 1/2)]
        else [] := by
  cases slice with
  | nil => simp at hlk
  | cons p t =>
    cases hinv : self.invested <;>
      simp [OnData, hlk, hpf, hinv, setHoldingsOf, List.filterMap_cons]

/-- Witness for C1 at a concrete input: `PatentsFiled = 5`,
`TechDiversity = 4/5`, no current position. -/
theorem OnData_patents_filed_buy_witness :
    OnData ⟨"AAPL", "AAPL.P", false⟩ [("AAPL.P", ⟨"AAPL", 5, 100, 4/5, 3⟩)] ≠ none ∧
      setHoldingsOf ((OnData ⟨"AAPL", "AAPL.P", false⟩
          [("AAPL.P", ⟨"AAPL", 5, 100, 4/5, 3⟩)]).getD []) = [("AAPL", 1)] := by
  have h := OnData_patents_filed_buy ⟨"AAPL", "AAPL.P", false⟩
    [("AAPL.P", ⟨"AAPL", 5, 100, 4/5, 3⟩)] ⟨"AAPL", 5, 100, 4/5, 3⟩ (by simp) (by norm_num)
  exact ⟨h.1, by rw [h.2]; norm_num⟩

/-- C4: a record with `PatentsFiled = 0` and `CumulativePatents > 0`
delivered while a position is held produces no command at all. -/
theorem OnData_zero_filed_hold (self : GrantedPatentsDataAlgorithm)
    (slice : List (String × GrantedPatentsData)) (patent_data : GrantedPatentsData)
    (hlk : slice.lookup self.patent_data_symbol = some patent_data)
    (hpf : patent_data.PatentsFiled = 0)
    (hcp : 0 < patent_data.CumulativePatents)
    (hinv : self.invested = true) :
    OnData self slice = some [] := by
  cases slice with
  | nil => simp at hlk
  | cons p t => simp [OnData, hlk, hpf, hcp, hinv]

/-- Witness for C4 at a concrete input. -/
theorem OnData_zero_filed_hold_witness :
    OnData ⟨"AAPL", "AAPL.P", true⟩ [("AAPL.P", ⟨"AAPL", 0, 100, 4/5, 3⟩)] = some [] :=
  OnData_zero_filed_hold ⟨"AAPL", "AAPL.P", true⟩ [("AAPL.P", ⟨"AAPL", 0, 100, 4/5, 3⟩)]
    ⟨"AAPL", 0, 100, 4/5, 3⟩ (by simp) rfl (by norm_num) rfl

/-- C6: an empty patent-data collection makes `OnData` a no-op:
it completes normally and issues no command. -/
theorem OnData_empty_slice_noop (self : GrantedPatentsDataAlgorithm) :
    OnData self [] = some [] := rfl

/-- C7: on a non-empty patent-data collection `OnData` fails (uncaught
`KeyError`) exactly when the collection has no record keyed by the
subscribed patent-data symbol; the unguarded lookup succeeds only under
that key-presence precondition. -/
theorem OnData_lookup_partiality (self : GrantedPatentsDataAlgorithm)
    (slice : List (String × GrantedPatentsData)) (hne : slice ≠ []) :
    OnData self slice = none ↔ slice.lookup self.patent_data_symbol = none := by
  cases slice with
  | nil => exact absurd rfl hne
  | cons p t =>
    cases hl : (p :: t).lookup self.patent_data_symbol with
    | none => simp [OnData, hl]
    | some pd =>
      simp only [OnData, List.isEmpty_cons, Bool.false_eq_true, if_false, hl]
      split_ifs <;> simp

/-- Witness for C7: a non-empty slice lacking the subscribed key fails. -/
theorem OnData_lookup_partiality_witness :
    OnData ⟨"AAPL", "AAPL.P", false⟩ [("OTHER", ⟨"OTHER", 5, 100, 4/5, 3⟩)] = none :=
  (OnData_lookup_partiality ⟨"AAPL", "AAPL.P", false⟩
    [("OTHER", ⟨"OTHER", 5, 100, 4/5, 3⟩)] (by simp)).mpr (by simp)

/-- C9: every set-target-holdings command `OnData` ever issues targets the
subscribed equity symbol with weight exactly `1/2` or `1`, and at most one
such command is issued per callback. -/
theorem OnData_command_invariant (self : GrantedPatentsDataAlgorithm)
    (slice : List (String × GrantedPatentsData)) (cmds : List Command)
    (h : OnData self slice = some cmds) :
    (∀ s w, (s, w) ∈ setHoldingsOf cmds →
        s = self.equity_symbol ∧ (w = 1/2 ∨ w = 1)) ∧
      (setHoldingsOf cmds).length ≤ 1 := by
  cases slice with
  | nil =>
    simp [OnData] at h
    subst h
    simp [setHoldingsOf]
  | cons p t =>
    cases hl : (p :: t).lookup self.patent_data_symbol with
    | none => simp [OnData, hl] at h
    | some pd =>
      simp only [OnData, List.isEmpty_cons, Bool.false_eq_true, if_false, hl] at h
      split_ifs at h with h1 h2 h3 h4
      · obtain rfl : _ = cmds := Option.some.inj h
        constructor
        · intro s w hm
          simp [setHoldingsOf, List.filterMap_cons] at hm
          rcases hm with ⟨rfl, rfl⟩
          exact ⟨rfl, Or.inr rfl⟩
        · simp [setHoldingsOf, List.filterMap_cons]
      · obtain rfl : _ = cmds := Option.some.inj h
        constructor
        · intro s w hm
          simp [setHoldingsOf, List.filterMap_cons] at hm
          rcases hm with ⟨rfl, rfl⟩
          exact ⟨rfl, Or.inl (by norm_num)⟩
        · simp [setHoldingsOf, List.filterMap_cons]
      · obtain rfl : _ = cmds := Option.some.inj h
        simp [setHoldingsOf]
      · obtain rfl : _ = cmds := Option.some.inj h
        simp [setHoldingsOf]
      · obtain rfl : _ = cmds := Option.some.inj h
        simp [setHoldingsOf]

/-- Witness for C9 at a concrete input (position already held, so the
callback issues no holdings command). -/
theorem OnData_command_invariant_witness :
    (setHoldingsOf ([] : List Command)).length ≤ 1 :=
  (OnData_command_invariant ⟨"AAPL", "AAPL.P", true⟩
    [("AAPL.P", ⟨"AAPL", 5, 100, 4/5, 3⟩)] [] (by norm_num [OnData])).2

/-- C10: an order event with `filled` status produces exactly one debug
line whose text contains the security identifier and the filled quantity;
any other status produces no output. -/
theorem OnOrderEvent_fill_logging (orderEvent : OrderEvent) :
    (orderEvent.Status = OrderStatus.filled →
      OnOrderEvent orderEvent =
          [Command.debug ("Order Filled: " ++ orderEvent.Symbol ++ " - Quantity: "
            ++ toString orderEvent.FillQuantity)] ∧
        containsStr ("Order Filled: " ++ orderEvent.Symbol ++ " - Quantity: "
            ++ toString orderEvent.FillQuantity) orderEvent.Symbol ∧
        containsStr ("Order Filled: " ++ orderEvent.Symbol ++ " - Quantity: "
            ++ toString orderEvent.FillQuantity) (toString orderEvent.FillQuantity)) ∧
    (orderEvent.Status ≠ OrderStatus.filled → OnOrderEvent orderEvent = []) := by
  constructor
  · intro h
    refine ⟨by simp [OnOrderEvent, h],
      ⟨"Order Filled: ", " - Quantity: " ++ toString orderEvent.FillQuantity,
        (String.append_assoc _ _ _)⟩,
      ⟨"Order Filled: " ++ orderEvent.Symbol ++ " - Quantity: ", "",
        (String.append_empty _).symm⟩⟩
  · intro h
    simp [OnOrderEvent, h]

/-- Witness for C10 at concrete inputs: one filled event, one canceled. -/
theorem OnOrderEvent_fill_logging_witness :
    OnOrderEvent ⟨"AAPL", 100, OrderStatus.filled⟩ =
        [Command.debug ("Order Filled: " ++ "AAPL" ++ " - Quantity: "
          ++ toString (100 : ℤ))] ∧
      OnOrderEvent ⟨"AAPL", 100, OrderStatus.canceled⟩ = [] :=
  ⟨((OnOrderEvent_fill_logging ⟨"AAPL", 100, OrderStatus.filled⟩).1 rfl).1,
   (OnOrderEvent_fill_logging ⟨"AAPL", 100, OrderStatus.canceled⟩).2 (by decide)⟩

/-- The universe filter predicate of
`GrantedPatentsDataUniverseAlgorithm.UniverseSelection`
(`DemonstrationUniverse.py`, lines 55-58): recent filing activity, high
technology diversity, and a minimum cumulative patent count. -/
def selectionCriteria (d : GrantedPatentsData) : Bool :=
  decide (0 < d.Patents90d) && decide (1/2 < d.TechDiversity)
    && decide (10 < d.CumulativePatents)

/-- The pairwise order realised by Python's stable
`selected.sort(key=lambda x: x.TechDiversity, reverse=True)`
(`DemonstrationUniverse.py`, line 61) on records annotated with their
input position: strictly higher diversity first, and equal diversity
kept in input order. -/
def stableDescOrder (a b : ℕ × GrantedPatentsData) : Prop :=
  b.2.TechDiversity < a.2.TechDiversity ∨
    (a.2.TechDiversity = b.2.TechDiversity ∧ a.1 ≤ b.1)

instance : DecidableRel stableDescOrder := fun a b => by
  unfold stableDescOrder
  infer_instance

instance : IsTotal (ℕ × GrantedPatentsData) stableDescOrder where
  total a b := by
    rcases lt_trichotomy a.2.TechDiversity b.2.TechDiversity with h | h | h
    · exact Or.inr (Or.inl h)
    · rcases Nat.le_total a.1 b.1 with h' | h'
      · exact Or.inl (Or.inr ⟨h, h'⟩)
      · exact Or.inr (Or.inr ⟨h.symm, h'⟩)
    · exact Or.inl (Or.inl h)

instance : IsTrans (ℕ × GrantedPatentsData) stableDescOrder where
  trans a b c hab hbc := by
    rcases hab with h1 | ⟨e1, i1⟩ <;> rcases hbc with h2 | ⟨e2, i2⟩
    · exact Or.inl (h2.trans h1)
    · exact Or.inl (e2 ▸ h1)
    · exact Or.inl (lt_of_lt_of_eq h2 e1.symm)
    · exact Or.inr ⟨e1.trans e2, i1.trans i2⟩

/-- The filtered candidate records, annotated with their input position
among the survivors, after the stable descending sort by `TechDiversity`. -/
def selectedSorted (data : List GrantedPatentsData) : List (ℕ × GrantedPatentsData) :=
  (data.filter selectionCriteria).enum.insertionSort stableDescOrder

/-- `GrantedPatentsDataUniverseAlgorithm.UniverseSelection`
(`DemonstrationUniverse.py`, lines 41-63): filter the candidate batch by
`selectionCriteria`, stable-sort by `TechDiversity` descending, and return
the symbols.  (The per-datum `self.Log` side effects are modelled in
`UniverseSelectionStep` below.) -/
def UniverseSelection (data : List GrantedPatentsData) : List String :=
  (selectedSorted data).map fun p => p.2.Symbol

/-- The additions/removals notification payload of `OnSecuritiesChanged`,
as the lists of the affected securities' symbols. -/
structure SecurityChanges where
  AddedSecurities : List String
  RemovedSecurities : List String

/-- `GrantedPatentsDataUniverseAlgorithm.OnSecuritiesChanged`
(`DemonstrationUniverse.py`, lines 65-76): log the change and, when at
least one security was added, equal-weight the added ones. -/
def OnSecuritiesChanged (changes : SecurityChanges) : List Command :=
  Command.log ("Universe changed - Added: " ++ toString changes.AddedSecurities.length
      ++ ", Removed: " ++ toString changes.RemovedSecurities.length) ::
    (if 0 < changes.AddedSecurities.length then
      changes.AddedSecurities.map fun s =>
        Command.setHoldings s (1 / (changes.AddedSecurities.length : ℚ))
    else [])

/-- C3: on a universe change with `N > 0` added securities, every added
security receives a set-target-holdings command of exactly `1/N`; with
`N = 0` no holdings command is issued; every holdings command issued
targets an added security (none targets a removed one). -/
theorem OnSecuritiesChanged_equal_weight (changes : SecurityChanges) :
    (0 < changes.AddedSecurities.length →
      setHoldingsOf (OnSecuritiesChanged changes) =
        changes.AddedSecurities.map fun s =>
          (s, 1 / (changes.AddedSecurities.length : ℚ))) ∧
    (changes.AddedSecurities.length = 0 →
      setHoldingsOf (OnSecuritiesChanged changes) = []) ∧
    (∀ s w, (s, w) ∈ setHoldingsOf (OnSecuritiesChanged changes) →
      s ∈ changes.AddedSecurities) := by
  refine ⟨fun h => ?_, fun h => ?_, fun s w hm => ?_⟩
  · simp only [OnSecuritiesChanged, if_pos h, setHoldingsOf, List.filterMap_cons,
      List.filterMap_map]
    exact List.filterMap_eq_map _ ▸ rfl
  · simp [OnSecuritiesChanged, setHoldingsOf, h]
  · by_cases h : 0 < changes.AddedSecurities.length
    · simp only [OnSecuritiesChanged, if_pos h, setHoldingsOf, List.filterMap_cons,
        List.filterMap_map] at hm
      rcases List.mem_filterMap.mp hm with ⟨a, ha, he⟩
      simp at he
      exact he.1 ▸ ha
    · simp [OnSecuritiesChanged, setHoldingsOf, h] at hm

/-- Witness for C3 at concrete inputs: two added securities get weight
`1/2` each; with no additions no holdings command is issued. -/
theorem OnSecuritiesChanged_equal_weight_witness :
    setHoldingsOf (OnSecuritiesChanged ⟨["A", "B"], ["C"]⟩) =
        [("A", 1/2), ("B", 1/2)] ∧
      setHoldingsOf (OnSecuritiesChanged ⟨[], ["C"]⟩) = [] := by
  have h1 := (OnSecuritiesChanged_equal_weight ⟨["A", "B"], ["C"]⟩).1 (by simp)
  have h2 := (OnSecuritiesChanged_equal_weight ⟨[], ["C"]⟩).2.1 rfl
  refine ⟨?_, h2⟩
  rw [h1]
  norm_num

/-- C2: the selected sequence is exactly the records satisfying the filter
predicate (as a permutation), listed with strictly descending
`TechDiversity` except for ties, which keep their input order; the
returned identifiers are the symbols of that sorted sequence. -/
theorem UniverseSelection_spec (data : List GrantedPatentsData) :
    UniverseSelection data = ((selectedSorted data).map fun p => p.2.Symbol) ∧
      ((selectedSorted data).map Prod.snd).Perm (data.filter selectionCriteria) ∧
      (selectedSorted data).Pairwise fun a b =>
        b.2.TechDiversity < a.2.TechDiversity ∨
          (a.2.TechDiversity = b.2.TechDiversity ∧ a.1 < b.1) := by
  refine ⟨rfl, ?_, ?_⟩
  · have hp :=
      (List.perm_insertionSort stableDescOrder
        (data.filter selectionCriteria).enum).map Prod.snd
    simpa [List.enum_map_snd] using hp
  · have hs : (selectedSorted data).Pairwise stableDescOrder :=
      List.sorted_insertionSort stableDescOrder _
    have hn : ((selectedSorted data).map Prod.fst).Nodup :=
      ((List.perm_insertionSort stableDescOrder
          (data.filter selectionCriteria).enum).map Prod.fst).nodup_iff.mpr
        (List.nodup_enum_map_fst _)
    have hne : (selectedSorted data).Pairwise fun a b => a.1 ≠ b.1 :=
      List.pairwise_map.mp hn
    exact (hs.and hne).imp fun h => by
      rcases h with ⟨hlt | ⟨he, hle⟩, hne2⟩
      · exact Or.inl hlt
      · exact Or.inr ⟨he, lt_of_le_of_ne hle hne2⟩

/-- The per-candidate log line emitted by the loop at the top of
`UniverseSelection` (`DemonstrationUniverse.py`, lines 48-49). -/
def universeSelectionLog (d : GrantedPatentsData) : String :=
  d.Symbol ++ " - Patents Filed: " ++ toString d.PatentsFiled ++ ", Tech Diversity: "
    ++ toString d.TechDiversity ++ ", 90d Patents: " ++ toString d.Patents90d

/-- The only algorithm-visible state a universe-selection callback touches:
the engine's accumulated log stream. -/
structure UniverseLogState where
  logs : List String

/-- One invocation of `UniverseSelection` together with its logging side
effect: the updated state and the returned list of symbols. -/
def UniverseSelectionStep (st : UniverseLogState) (data : List GrantedPatentsData) :
    UniverseLogState × List String :=
  (⟨st.logs ++ data.map universeSelectionLog⟩, UniverseSelection data)

/-- C5: universe selection is deterministic and idempotent — invoking the
callback a second time on the same batch, from the state the first
invocation left behind, returns the same ordered output. -/
theorem UniverseSelection_deterministic (st : UniverseLogState)
    (data : List GrantedPatentsData) :
    (UniverseSelectionStep (UniverseSelectionStep st data).1 data).2 =
      (UniverseSelectionStep st data).2 := rfl

/-- Configuration fixed by `GrantedPatentsDataUniverseAlgorithm.Initialize`
(`DemonstrationUniverse.py`, lines 23-28) apart from any logging. -/
structure UniverseInitConfig where
  universeResolution : String
  startDate : ℕ × ℕ × ℕ
  endDate : ℕ × ℕ × ℕ
  cash : ℕ
deriving DecidableEq

/-- The warning line of `DemonstrationUniverse.py`, line 35, for a history
of `n` returned entries. -/
def universeInitWarning (n : ℕ) : String :=
  "Warning: Expected 1 day of historical data, got " ++ toString n

/-- The per-date log line of `DemonstrationUniverse.py`, line 38, for a
historical date holding `n` stocks. -/
def universeHistoryLog (n : ℕ) : String :=
  "Historical universe contains " ++ toString n ++ " stocks"

/-- `GrantedPatentsDataUniverseAlgorithm.Initialize`
(`DemonstrationUniverse.py`, lines 20-38), modelled over the historical
universe query result: `history` has one entry per returned day, giving
that day's stock count.  Returns the fixed configuration and the log
lines emitted. -/
def universeSetup (history : List ℕ) : UniverseInitConfig × List String :=
  (⟨"Daily", (2022, 2, 14), (2022, 2, 18), 100000⟩,
    (if history.length ≠ 1 then [universeInitWarning history.length] else [])
      ++ history.map universeHistoryLog)

/-- The first character of the character data of an appended string is that
of its left part, when the left part is non-empty. -/
theorem head?_data_append (s t : String) (h : s.data ≠ []) :
    (s ++ t).data.head? = s.data.head? := by
  have hst : (s ++ t).data = s.data ++ t.data := rfl
  rw [hst]
  cases hd : s.data with
  | nil => exact absurd hd h
  | cons a l => simp [hd]

/-- C8: a historical-entry count differing from the expected 1 makes the
setup emit the warning line and nothing else corrective — the resulting
configuration is the same fixed one in all cases; a count of exactly 1
emits no warning line. -/
theorem universeSetup_history_check (history : List ℕ) :
    (history.length ≠ 1 →
      universeInitWarning history.length ∈ (universeSetup history).2) ∧
    (history.length = 1 →
      ∀ s ∈ (universeSetup history).2, ∀ t : String, s ≠ "Warning: " ++ t) ∧
    (universeSetup history).1 = ⟨"Daily", (2022, 2, 14), (2022, 2, 18), 100000⟩ := by
  refine ⟨fun h => ?_, fun h s hs t heq => ?_, rfl⟩
  · simp [universeSetup, h]
  · have hlogs : (universeSetup history).2 = history.map universeHistoryLog := by
      simp [universeSetup, h]
    rw [hlogs] at hs
    obtain ⟨n, hn, rfl⟩ := List.mem_map.mp hs
    have hH : (universeHistoryLog n).data.head? = some 'H' := by
      rw [show universeHistoryLog n
            = "Historical universe contains " ++ (toString n ++ " stocks")
          from String.append_assoc _ _ _]
      rw [head?_data_append _ _ (by decide)]
      decide
    have hW : ("Warning: " ++ t).data.head? = some 'W' := by
      rw [head?_data_append _ _ (by decide)]
      decide
    have hc := congrArg (fun x => x.data.head?) heq
    dsimp only at hc
    rw [hH, hW] at hc
    exact absurd hc (by decide)

/-- Witness for C8 at concrete inputs: an empty history (count 0 ≠ 1)
carries the warning; with exactly one returned day the per-date log line
is not a warning line. -/
theorem universeSetup_history_check_witness :
    universeInitWarning 0 ∈ (universeSetup []).2 ∧
      universeHistoryLog 5 ≠ "Warning: " ++ "x" := by
  constructor
  · exact (universeSetup_history_check []).1 (by decide)
  · exact (universeSetup_history_check [5]).2.1 rfl (universeHistoryLog 5)
      (by simp [universeSetup]) "x"
